import Mathlib

/-!
Verification of the actions-cache-s3 repository (Go) against its
natural-language specification.

This file shallowly embeds the relevant parts of the repository's source
(`src/src/archive.go`, `src/src/s3.go`, and the cache-verb drivers) into
Lean 4 and settles the claims of the spec against that embedding.

Modelling conventions:
- Go `int64`/`int` values are modelled as `Int`.  Go's integer division
  truncates toward zero, so it is rendered with `Int.tdiv`, never with
  Lean's `/` on `Int` (which is Euclidean division).
- Go errors are an inductive `GoErr`; a fallible Go function returning
  `(T, error)` becomes `Except GoErr T` or an explicit pair when the
  partial state at the moment of failure is observable.
- Byte streams handled by the archive codec are token lists: a tar header
  is one token, a content byte one token, the tar end-of-archive trailer
  one token.  A zstd frame is modelled as one opaque token wrapping the
  tokens compressed into it (the external zstd library is lossless, so a
  frame decodes to exactly the tokens encoded into it).
- The filesystem seen by the archiver (`filepath.Glob`, `filepath.Walk`,
  `os.Open`) is a `GoFS` oracle supplying the results of those calls; the
  filesystem written by extraction is a map `String → Option XFile`.
- The build target is linux (`GOOS=linux` in the Makefile), where
  `filepath.Separator` is '/', so `filepath.ToSlash` is the identity.
-/

/-- Errors surfaced by the Go code (values of Go's `error` interface). -/
inductive GoErr where
  | badPattern          -- filepath.Glob: syntax error in pattern
  | notExist            -- os: file does not exist (walk/open failure)
  | readFailure         -- I/O failure while reading content bytes
  | writeTooLong        -- archive/tar: content does not match header size
  | unexpectedEOF       -- truncated stream inside an entry
  | malformedHeader     -- corrupt tar framing
  | zstdFormat          -- zstd: input is not a valid compressed frame
  | chtimesFailed       -- os.Chtimes failure
  | notFound            -- S3 HeadObject: 404 for an absent key
  | noFilesMatchingDefaultKey  -- GetLatestObject: empty listing
  | nilKey              -- GetLatestObject: listed object has nil key
  | storeOutage         -- S3: any other head-request failure
  | accessDenied        -- S3: permission failure
deriving DecidableEq

/-! ## Constants (src/src/s3.go lines 19-32 and part_004 compression modes) -/

def defaultConcurrency : Int := 10

/-- 5 MiB minimum (AWS requirement). -/
def minPartSize : Int := 5 * 1024 * 1024

/-- 100 MiB maximum (practical limit). -/
def maxPartSize : Int := 100 * 1024 * 1024

/-- Default download part size. -/
def defaultDownloadPartSize : Int := minPartSize

/-- Maximum number of parts for multipart upload. -/
def maxUploadParts : Int := 10000

def CompressionZstd : String := "zstd"

def CompressionNone : String := "none"

/-! ## TransferConfig (src/src/s3.go lines 34-95) -/

/-- `TransferConfig` holds configurable S3 transfer parameters.
Zero values mean "use defaults". -/
structure TransferConfig where
  UploadConcurrency : Int := 0
  DownloadConcurrency : Int := 0
  UploadPartSize : Int := 0
  DownloadPartSize : Int := 0
deriving DecidableEq

def TransferConfig.uploadConcurrency (tc : TransferConfig) : Int :=
  if tc.UploadConcurrency > 0 then tc.UploadConcurrency else defaultConcurrency

def TransferConfig.downloadConcurrency (tc : TransferConfig) : Int :=
  if tc.DownloadConcurrency > 0 then tc.DownloadConcurrency else defaultConcurrency

def TransferConfig.downloadPartSize (tc : TransferConfig) : Int :=
  if tc.DownloadPartSize > 0 then tc.DownloadPartSize else defaultDownloadPartSize

/-- `optimalPartSize` calculates the part size for multipart uploads based on
file size (src/src/s3.go lines 132-149).  Go's `/` on int64 truncates toward
zero, hence `Int.tdiv`. -/
def optimalPartSize (fileSize : Int) : Int :=
  let partSize := fileSize.tdiv maxUploadParts
  if partSize < minPartSize then
    minPartSize
  else if partSize > maxPartSize then
    maxPartSize
  else
    ((partSize + 1024 * 1024 - 1).tdiv (1024 * 1024)) * (1024 * 1024)

/-- `resolveUploadPartSize` (src/src/s3.go lines 64-79): a user-specified
size is clamped to AWS limits, otherwise the optimal size is calculated. -/
def TransferConfig.resolveUploadPartSize (tc : TransferConfig) (fileSize : Int) : Int :=
  if tc.UploadPartSize > 0 then
    let ps := tc.UploadPartSize
    let ps := if ps < minPartSize then minPartSize else ps
    let ps := if ps > maxPartSize then maxPartSize else ps
    ps
  else
    optimalPartSize fileSize

/-- `resolveStreamUploadPartSize` (src/src/s3.go lines 81-95): part size for
streaming uploads where the total size is unknown upfront. -/
def TransferConfig.resolveStreamUploadPartSize (tc : TransferConfig) : Int :=
  if tc.UploadPartSize > 0 then
    let ps := tc.UploadPartSize
    let ps := if ps < minPartSize then minPartSize else ps
    let ps := if ps > maxPartSize then maxPartSize else ps
    ps
  else
    minPartSize

/-! ### Nat-level core of `optimalPartSize`, used to reason about the
nonnegative sizes that actually occur (`os.Stat` sizes). -/

def optimalPartSizeN (fileSize : Nat) : Nat :=
  if fileSize / 10000 < 5242880 then
    5242880
  else if fileSize / 10000 > 104857600 then
    104857600
  else
    ((fileSize / 10000 + 1048576 - 1) / 1048576) * 1048576

lemma optimalPartSize_eq_natCore (n : Nat) :
    optimalPartSize (n : Int) = (optimalPartSizeN n : Int) := by
  unfold optimalPartSize optimalPartSizeN
  have h1 : (n : Int).tdiv maxUploadParts = ((n / 10000 : Nat) : Int) := by
    unfold maxUploadParts
    exact_mod_cast (Int.ofNat_tdiv n 10000).symm
  have h2 : minPartSize = ((5242880 : Nat) : Int) := by decide
  have h3 : maxPartSize = ((104857600 : Nat) : Int) := by decide
  rw [h1, h2, h3]
  by_cases hlt : (n / 10000 : Nat) < 5242880
  · simp only [Int.ofNat_lt.mpr hlt, if_pos, hlt, if_true]
  · have hlt2 : ¬ ((n / 10000 : Nat) : Int) < ((5242880 : Nat) : Int) := by
      exact_mod_cast hlt
    simp only [hlt2, if_false, hlt, if_false]
    by_cases hgt : (5242880 : Nat) < 104857600 ∧ (104857600 : Nat) < n / 10000
    · have hgt2 : ((104857600 : Nat) : Int) < ((n / 10000 : Nat) : Int) := by
        exact_mod_cast hgt.2
      simp only [hgt2, if_pos, hgt.2, if_true]
    · have hng : ¬ (104857600 : Nat) < n / 10000 := fun hc => hgt ⟨by norm_num, hc⟩
      have hng2 : ¬ ((5242880 : Nat) : Int) < ((104857600 : Nat) : Int) ∨
          ¬ ((104857600 : Nat) : Int) < ((n / 10000 : Nat) : Int) := by
        right; exact_mod_cast hng
      have hng3 : ¬ ((n / 10000 : Nat) : Int) > ((104857600 : Nat) : Int) := by
        exact_mod_cast hng
      simp only [hng3, if_false, hng, if_false]
      have h4 : ((n / 10000 : Nat) : Int) + 1024 * 1024 - 1 =
          (((n / 10000 + 1048576 - 1 : Nat)) : Int) := by
        omega
      rw [h4]
      have h5 : (((n / 10000 + 1048576 - 1 : Nat)) : Int).tdiv ((1024 * 1024 : Int)) =
          (((n / 10000 + 1048576 - 1) / 1048576 : Nat) : Int) := by
        have := (Int.ofNat_tdiv (n / 10000 + 1048576 - 1) 1048576).symm
        exact_mod_cast this
      rw [h5]
      omega

lemma optimalPartSizeN_bounds (n : Nat) :
    5242880 ≤ optimalPartSizeN n ∧ optimalPartSizeN n ≤ 104857600 := by
  unfold optimalPartSizeN
  split_ifs <;> omega

lemma optimalPartSize_bounds (fileSize : Int) (hfs : 0 ≤ fileSize) :
    minPartSize ≤ optimalPartSize fileSize ∧ optimalPartSize fileSize ≤ maxPartSize := by
  obtain ⟨n, rfl⟩ : ∃ n : Nat, fileSize = (n : Int) := ⟨fileSize.toNat, by omega⟩
  rw [optimalPartSize_eq_natCore]
  have hb := optimalPartSizeN_bounds n
  constructor
  · have h1 : ((5242880 : Nat) : Int) ≤ (optimalPartSizeN n : Int) := by
      exact_mod_cast hb.1
    calc minPartSize = ((5242880 : Nat) : Int) := by decide
      _ ≤ _ := h1
  · have h2 : (optimalPartSizeN n : Int) ≤ ((104857600 : Nat) : Int) := by
      exact_mod_cast hb.2
    calc (optimalPartSizeN n : Int) ≤ ((104857600 : Nat) : Int) := h2
      _ = maxPartSize := by decide

lemma optimalPartSizeN_parts (n : Nat) (h : n ≤ 10000 * 104857600) :
    n / optimalPartSizeN n ≤ 10000 := by
  unfold optimalPartSizeN
  by_cases h1 : n / 10000 < 5242880
  · simp only [h1, if_true]
    omega
  · simp only [h1, if_false]
    by_cases h2 : n / 10000 > 104857600
    · omega
    · simp only [h2, if_false]
      have hq : 5242880 ≤ n / 10000 := by omega
      have hr : 5242880 ≤ (n / 10000 + 1048576 - 1) / 1048576 * 1048576 := by omega
      have hge : n / 10000 ≤ (n / 10000 + 1048576 - 1) / 1048576 * 1048576 := by omega
      have hpos : 0 < (n / 10000 + 1048576 - 1) / 1048576 * 1048576 := by omega
      have hlt : n < 10001 * ((n / 10000 + 1048576 - 1) / 1048576 * 1048576) := by
        have hn : n ≤ 10000 * (n / 10000) + 9999 := by omega
        nlinarith
      have := (Nat.div_lt_iff_lt_mul hpos).mpr hlt
      omega

/-! ## Claims C4, C5, C6 -/

/-- Counterexample to C4 at a concrete input: a caller-supplied download
part-size override of 1 byte is used verbatim by `downloadPartSize`
(src/src/s3.go lines 57-62), so the resolved download part size falls below
`minPartSize`; likewise an override of 200 MiB stays above `maxPartSize`.
Downloads are not clamped, contradicting the claim "for downloads alike". -/
theorem c4_download_not_clamped_cex :
    (TransferConfig.downloadPartSize { DownloadPartSize := 1 } = 1 ∧
      TransferConfig.downloadPartSize { DownloadPartSize := 1 } < minPartSize) ∧
    (TransferConfig.downloadPartSize { DownloadPartSize := 200 * 1024 * 1024 } =
        200 * 1024 * 1024 ∧
      maxPartSize < TransferConfig.downloadPartSize
        { DownloadPartSize := 200 * 1024 * 1024 }) := by
  decide

/-- C4 amended: for every `TransferConfig` and nonnegative total size, the
resolved *upload* part size (known-size and streaming) lies in
[`minPartSize`, `maxPartSize`], and an upload override below `minPartSize`
resolves to `minPartSize` while one above `maxPartSize` resolves to
`maxPartSize`.  The *download* part size is not clamped: a positive override
is returned verbatim, and with no override it is `defaultDownloadPartSize`. -/
theorem c4_part_size_resolution (tc : TransferConfig) (fileSize : Int)
    (hfs : 0 ≤ fileSize) :
    (minPartSize ≤ tc.resolveUploadPartSize fileSize ∧
      tc.resolveUploadPartSize fileSize ≤ maxPartSize) ∧
    (minPartSize ≤ tc.resolveStreamUploadPartSize ∧
      tc.resolveStreamUploadPartSize ≤ maxPartSize) ∧
    (0 < tc.UploadPartSize → tc.UploadPartSize < minPartSize →
      tc.resolveUploadPartSize fileSize = minPartSize ∧
      tc.resolveStreamUploadPartSize = minPartSize) ∧
    (maxPartSize < tc.UploadPartSize →
      tc.resolveUploadPartSize fileSize = maxPartSize ∧
      tc.resolveStreamUploadPartSize = maxPartSize) ∧
    (0 < tc.DownloadPartSize → tc.downloadPartSize = tc.DownloadPartSize) ∧
    (tc.DownloadPartSize ≤ 0 → tc.downloadPartSize = defaultDownloadPartSize) := by
  have hopt := optimalPartSize_bounds fileSize hfs
  refine ⟨?_, ?_, ?_, ?_, ?_, ?_⟩
  · unfold TransferConfig.resolveUploadPartSize
    by_cases hov : tc.UploadPartSize > 0
    · rw [if_pos hov]
      simp only [minPartSize, maxPartSize]
      split_ifs <;> omega
    · rw [if_neg hov]
      exact hopt
  · unfold TransferConfig.resolveStreamUploadPartSize
    by_cases hov : tc.UploadPartSize > 0
    · rw [if_pos hov]
      simp only [minPartSize, maxPartSize]
      split_ifs <;> omega
    · rw [if_neg hov]
      simp only [minPartSize, maxPartSize]
      omega
  · intro h1 h2
    unfold TransferConfig.resolveUploadPartSize TransferConfig.resolveStreamUploadPartSize
    rw [if_pos h1, if_pos h1]
    simp only [minPartSize, maxPartSize] at h2 ⊢
    constructor <;> (split_ifs <;> omega)
  · intro h1
    have hov : tc.UploadPartSize > 0 := by
      simp only [maxPartSize] at h1; omega
    unfold TransferConfig.resolveUploadPartSize TransferConfig.resolveStreamUploadPartSize
    rw [if_pos hov, if_pos hov]
    simp only [minPartSize, maxPartSize] at h1 ⊢
    constructor <;> (split_ifs <;> omega)
  · intro h1
    unfold TransferConfig.downloadPartSize
    rw [if_pos h1]
  · intro h1
    unfold TransferConfig.downloadPartSize
    rw [if_neg (by omega)]

/-- Witness for C4 amended, at `UploadPartSize = 1` (clamped up to
`minPartSize`) and `DownloadPartSize = 0` (default), total size 0. -/
theorem c4_part_size_resolution_witness :
    (0 : Int) ≤ 0 ∧
    ((minPartSize ≤ TransferConfig.resolveUploadPartSize { UploadPartSize := 1 } 0 ∧
        TransferConfig.resolveUploadPartSize { UploadPartSize := 1 } 0 ≤ maxPartSize) ∧
      (minPartSize ≤ TransferConfig.resolveStreamUploadPartSize { UploadPartSize := 1 } ∧
        TransferConfig.resolveStreamUploadPartSize { UploadPartSize := 1 } ≤ maxPartSize) ∧
      (0 < (1 : Int) → (1 : Int) < minPartSize →
        TransferConfig.resolveUploadPartSize { UploadPartSize := 1 } 0 = minPartSize ∧
        TransferConfig.resolveStreamUploadPartSize { UploadPartSize := 1 } = minPartSize) ∧
      (maxPartSize < (1 : Int) →
        TransferConfig.resolveUploadPartSize { UploadPartSize := 1 } 0 = maxPartSize ∧
        TransferConfig.resolveStreamUploadPartSize { UploadPartSize := 1 } = maxPartSize) ∧
      (0 < (0 : Int) →
        TransferConfig.downloadPartSize { UploadPartSize := 1 } = (0 : Int)) ∧
      ((0 : Int) ≤ 0 →
        TransferConfig.downloadPartSize { UploadPartSize := 1 } = defaultDownloadPartSize)) :=
  ⟨le_refl 0, c4_part_size_resolution { UploadPartSize := 1 } 0 (le_refl 0)⟩

/-- Counterexample to C5 at a concrete input: for a 10 TB file
(totalSize = 10^13 bytes, ≥ 10000·maxPartSize), `optimalPartSize` clamps to
`maxPartSize`, and dividing the total size by the returned part size yields
95367 parts, far more than `maxUploadParts = 10000`. -/
theorem c5_parts_bound_cex :
    optimalPartSize 10000000000000 = maxPartSize ∧
    ¬ ((10000000000000 : Int).tdiv (optimalPartSize 10000000000000) ≤ maxUploadParts) := by
  decide

/-- C5 amended: for every nonnegative total size with no override,
`optimalPartSize` lies within [`minPartSize`, `maxPartSize`]; and whenever
the total size is at most `maxUploadParts * maxPartSize` (≈ 1000 GiB; beyond
that the `maxPartSize` clamp makes more than 10000 parts unavoidable),
dividing the total size by the returned part size yields at most
`maxUploadParts` (10000) parts. -/
theorem c5_optimal_part_size (fileSize : Int) (hfs : 0 ≤ fileSize) :
    (minPartSize ≤ optimalPartSize fileSize ∧ optimalPartSize fileSize ≤ maxPartSize) ∧
    (fileSize ≤ maxUploadParts * maxPartSize →
      fileSize.tdiv (optimalPartSize fileSize) ≤ maxUploadParts) := by
  have hb2 := optimalPartSize_bounds fileSize hfs
  obtain ⟨n, rfl⟩ : ∃ n : Nat, fileSize = (n : Int) := ⟨fileSize.toNat, by omega⟩
  rw [optimalPartSize_eq_natCore] at hb2 ⊢
  constructor
  · exact hb2
  · intro hle
    have hle2 : n ≤ 10000 * 104857600 := by
      have : (n : Int) ≤ ((10000 * 104857600 : Nat) : Int) := by
        calc (n : Int) ≤ maxUploadParts * maxPartSize := hle
          _ = ((10000 * 104857600 : Nat) : Int) := by decide
      exact_mod_cast this
    have hp := optimalPartSizeN_parts n hle2
    have h3 : (n : Int).tdiv ((optimalPartSizeN n : Nat) : Int) =
        ((n / optimalPartSizeN n : Nat) : Int) := by
      exact_mod_cast (Int.ofNat_tdiv n (optimalPartSizeN n)).symm
    rw [h3]
    have : ((n / optimalPartSizeN n : Nat) : Int) ≤ ((10000 : Nat) : Int) := by
      exact_mod_cast hp
    calc ((n / optimalPartSizeN n : Nat) : Int) ≤ ((10000 : Nat) : Int) := this
      _ = maxUploadParts := by decide

/-- Witness for C5 amended at totalSize = 500 GiB. -/
theorem c5_optimal_part_size_witness :
    (0 : Int) ≤ 536870912000 ∧
    ((minPartSize ≤ optimalPartSize 536870912000 ∧
        optimalPartSize 536870912000 ≤ maxPartSize) ∧
      ((536870912000 : Int) ≤ maxUploadParts * maxPartSize →
        (536870912000 : Int).tdiv (optimalPartSize 536870912000) ≤ maxUploadParts)) :=
  ⟨by decide, c5_optimal_part_size 536870912000 (by decide)⟩

/-- C6: for totalSize = 500 GiB with no override, `optimalPartSize` returns
exactly `500 GiB tdiv 10000` (= 51.2 MiB) rounded up to the next whole MiB,
i.e. 52 MiB = 54525952 bytes — within 1 MiB of the spec's "≈ 51 MiB" — and
the result lies within [`minPartSize`, `maxPartSize`]. -/
theorem c6_concrete_500gib_part_size :
    optimalPartSize (500 * 1024 * 1024 * 1024) =
      (((500 * 1024 * 1024 * 1024 : Int).tdiv 10000 + 1024 * 1024 - 1).tdiv
        (1024 * 1024)) * (1024 * 1024) ∧
    optimalPartSize (500 * 1024 * 1024 * 1024) = 52 * 1024 * 1024 ∧
    minPartSize ≤ optimalPartSize (500 * 1024 * 1024 * 1024) ∧
    optimalPartSize (500 * 1024 * 1024 * 1024) ≤ maxPartSize ∧
    optimalPartSize (500 * 1024 * 1024 * 1024) - 51 * 1024 * 1024 ≤ 1024 * 1024 ∧
    51 * 1024 * 1024 ≤ optimalPartSize (500 * 1024 * 1024 * 1024) := by
  refine ⟨by decide, by decide, by decide, by decide, by decide, by decide⟩

/-! ## Object-store operations (src/src/s3.go lines 151-390)

The S3 store behind the SDK calls is modelled at its interface: the bucket
is a map from keys to stored objects, a `HeadObject` on an absent key fails
with a not-found error (the SDK surfaces a 404 as a non-nil `error`), and
`DeleteObject`/`ListObjectsV2` act on the map.  `getS3Client` failures
(local AWS-config loading) are outside the store model. -/

structure StoredObj where
  size : Int
deriving DecidableEq

def Store : Type := String → Option StoredObj

/-- The SDK's `HeadObjectOutput` (only the field the code reads). -/
structure HeadObjectOutput where
  ContentLength : Option Int
deriving DecidableEq

/-- `ObjectProperties` (src/src/s3.go lines 367-381): a head request.  The
pair mirrors Go's `(*s3.HeadObjectOutput, error)` return.  On an absent key
the SDK returns `(nil, NotFound)`. -/
def ObjectProperties (store : Store) (key : String) :
    Option HeadObjectOutput × Option GoErr :=
  match store key with
  | some o => (some { ContentLength := some o.size }, none)
  | none => (none, some GoErr.notFound)

/-- The body of `ObjectExists` (src/src/s3.go lines 383-390) as a function
of the head-request outcome, so that it can be evaluated on any outcome of
the underlying request (absence, outage, permission failure, ...). -/
def ObjectExistsFromHead (r : Option HeadObjectOutput × Option GoErr) :
    Bool × Option GoErr :=
  if r.2.isSome ∨ r.1.isNone then
    -- Intentionally return error nil, this is just an exists/does not exist check
    (false, none)
  else
    (true, none)

def ObjectExists (store : Store) (key : String) : Bool × Option GoErr :=
  ObjectExistsFromHead (ObjectProperties store key)

/-- `DeleteObject` (src/src/s3.go lines 337-365).  Returns the Go `error`
result and the store after the call. -/
def DeleteObject (store : Store) (key : String) : Option GoErr × Store :=
  let r := ObjectProperties store key
  if r.2.isSome ∨ r.1.isNone then
    -- slog.Warn("cannot delete cache, likely does not exist"); return err
    (r.2, store)
  else
    (none, fun k => if k = key then none else store k)

/-- One step of `runPut` (src/src/archive_test.go lines 674-688): the
artifact-pattern check and the `ObjectExists` check that precedes the
upload. -/
inductive RunPutCheck where
  | errNoArtifacts
  | errCheckFailed (e : GoErr)
  | cacheHit
  | cacheMiss
deriving DecidableEq

def runPutCheckPhase (artifacts : List String)
    (headRes : Option HeadObjectOutput × Option GoErr) : RunPutCheck :=
  if artifacts.length = 0 ∨ (artifacts.headD "").length = 0 then
    .errNoArtifacts
  else
    match ObjectExistsFromHead headRes with
    | (_, some e) => .errCheckFailed e
    | (true, none) => .cacheHit
    | (false, none) => .cacheMiss

/-! ## Claims C3 and C9 -/

/-- Counterexample to C3 at a concrete input: on a store with no objects,
`DeleteObject` on the absent key returns the non-nil not-found error from
its existence check (`return err` at src/src/s3.go line 347), not success. -/
theorem c3_evict_absent_returns_error_cex :
    (DeleteObject (fun _ => none) "cache-key.tar.gz").1 = some GoErr.notFound ∧
    (DeleteObject (fun _ => none) "cache-key.tar.gz").1 ≠ none := by
  constructor
  · rfl
  · intro h
    exact Option.noConfusion h

/-- C3 amended: `DeleteObject` on a key absent from the store performs no
deletion and returns the (non-nil) not-found error of its head request —
deleting an absent key is reported as an error, not success — and a
subsequent existence check still reports absent (with a nil error). -/
theorem c3_evict_absent_key (store : Store) (key : String)
    (h : store key = none) :
    (DeleteObject store key).1 = some GoErr.notFound ∧
    (DeleteObject store key).2 = store ∧
    ObjectExists (DeleteObject store key).2 key = (false, none) := by
  simp [DeleteObject, ObjectExists, ObjectExistsFromHead, ObjectProperties, h]

/-- Witness for C3 amended on the empty store. -/
theorem c3_evict_absent_key_witness :
    ((fun _ => none : Store) "cache-key.tar.gz" = none) ∧
    ((DeleteObject (fun _ => none) "cache-key.tar.gz").1 = some GoErr.notFound ∧
      (DeleteObject (fun _ => none) "cache-key.tar.gz").2 = (fun _ => none : Store) ∧
      ObjectExists (DeleteObject (fun _ => none) "cache-key.tar.gz").2
        "cache-key.tar.gz" = (false, none)) :=
  ⟨rfl, c3_evict_absent_key (fun _ => none) "cache-key.tar.gz" rfl⟩

/-- C9 (implicit claim, confirmed): `ObjectExists` returns a nil error for
every outcome of the underlying head request; every failing head request —
not-found, store outage, permission failure alike — is reported as
`(false, nil)`, indistinguishable from a cache miss; consequently the
`if err != nil` branch after `ObjectExists` in `runPut` is unreachable. -/
theorem c9_object_exists_never_errors
    (r : Option HeadObjectOutput × Option GoErr) :
    (ObjectExistsFromHead r).2 = none ∧
    (∀ e : GoErr, ObjectExistsFromHead (none, some e) = (false, none)) ∧
    (∀ e : GoErr, ∀ h : Option HeadObjectOutput,
      ObjectExistsFromHead (h, some e) =
        ObjectExistsFromHead (none, some GoErr.notFound)) ∧
    (∀ (arts : List String) (e : GoErr),
      runPutCheckPhase arts r ≠ .errCheckFailed e) := by
  refine ⟨?_, ?_, ?_, ?_⟩
  · unfold ObjectExistsFromHead
    split <;> rfl
  · intro e; rfl
  · intro e h
    unfold ObjectExistsFromHead
    simp
  · intro arts e
    unfold runPutCheckPhase
    split
    · intro hc; exact RunPutCheck.noConfusion hc
    · have h2 : (ObjectExistsFromHead r).2 = none := by
        unfold ObjectExistsFromHead; split <;> rfl
      rcases hr : ObjectExistsFromHead r with ⟨b, o⟩
      rw [hr] at h2
      simp only at h2
      subst h2
      cases b <;> (intro hc; exact RunPutCheck.noConfusion hc)

/-! ## GetLatestObject (src/src/s3.go lines 151-186)

The listing returned by `ListObjectsV2` under the default key prefix is the
input; each listed object carries the SDK's nullable `Key` and
`LastModified` fields.  `sort.Slice` with the code's comparator (the
`time.After` test with its nil handling) is modelled as insertion sort by
that comparator: `sort.Slice` guarantees only some permutation ordered by
the comparator (it is explicitly unstable), and every property proved below
depends only on that. -/

structure S3Object where
  key : Option String
  lastModified : Option Int
deriving DecidableEq

/-- The comparator passed to `sort.Slice` (src/src/s3.go lines 171-180):
`files[i].LastModified.After(*files[j].LastModified)` with nil pointers
ordered last. -/
def lastModifiedAfter (a b : S3Object) : Bool :=
  match a.lastModified with
  | none => false
  | some ta =>
    match b.lastModified with
    | none => true
    | some tb => tb < ta

def insertByAfter (x : S3Object) : List S3Object → List S3Object
  | [] => [x]
  | y :: ys => if lastModifiedAfter x y then x :: y :: ys else y :: insertByAfter x ys

/-- Model of `sort.Slice(files, less)`: a permutation of `files` ordered by
the comparator. -/
def sortSliceByAfter (l : List S3Object) : List S3Object :=
  l.foldr insertByAfter []

def GetLatestObject (files : List S3Object) : Except GoErr String :=
  if files.length < 1 then
    .error .noFilesMatchingDefaultKey
  else
    match sortSliceByAfter files with
    | [] => .error .noFilesMatchingDefaultKey  -- unreachable: sorting keeps the length
    | f :: _ =>
      match f.key with
      | none => .error .nilKey
      | some k => .ok k

/-- "at least as recent", with a nil `LastModified` ordered below
everything. -/
def modTimeLE (a b : Option Int) : Prop :=
  match a with
  | none => True
  | some ta =>
    match b with
    | none => False
    | some tb => ta ≤ tb

lemma lastModifiedAfter_irrefl (a : S3Object) : lastModifiedAfter a a = false := by
  unfold lastModifiedAfter
  cases a.lastModified with
  | none => rfl
  | some ta => simp

lemma lastModifiedAfter_asymm (a b : S3Object) (h : lastModifiedAfter a b = true) :
    lastModifiedAfter b a = false := by
  unfold lastModifiedAfter at *
  cases ha : a.lastModified with
  | none => rw [ha] at h; exact absurd h (by simp)
  | some ta =>
    rw [ha] at h
    cases hb : b.lastModified with
    | none => rfl
    | some tb =>
      rw [hb] at h
      simp at h ⊢
      omega

lemma lastModifiedAfter_trans (z x y : S3Object)
    (h1 : lastModifiedAfter z x = true) (h2 : lastModifiedAfter x y = true) :
    lastModifiedAfter z y = true := by
  unfold lastModifiedAfter at *
  cases hz : z.lastModified with
  | none => rw [hz] at h1; exact absurd h1 (by simp)
  | some tz =>
    rw [hz] at h1
    cases hx : x.lastModified with
    | none => rw [hx] at h2; exact absurd h2 (by simp)
    | some tx =>
      rw [hx] at h1 h2
      cases hy : y.lastModified with
      | none => rfl
      | some ty =>
        rw [hy] at h2
        simp at h1 h2 ⊢
        omega

lemma mem_insertByAfter (z x : S3Object) (l : List S3Object) :
    z ∈ insertByAfter x l ↔ z = x ∨ z ∈ l := by
  induction l with
  | nil => simp [insertByAfter]
  | cons y ys ih =>
    unfold insertByAfter
    by_cases h : lastModifiedAfter x y = true
    · rw [if_pos h]
      simp
    · rw [if_neg h]
      simp [ih]
      tauto

lemma mem_sortSliceByAfter (z : S3Object) (l : List S3Object) :
    z ∈ sortSliceByAfter l ↔ z ∈ l := by
  induction l with
  | nil => simp [sortSliceByAfter]
  | cons x xs ih =>
    unfold sortSliceByAfter at *
    simp only [List.foldr_cons]
    rw [mem_insertByAfter]
    simp [ih]

lemma sortSliceByAfter_head_max (l : List S3Object) :
    ∀ f t, sortSliceByAfter l = f :: t →
      ∀ z ∈ sortSliceByAfter l, lastModifiedAfter z f = false := by
  induction l with
  | nil => intro f t h; exact absurd h (by simp [sortSliceByAfter])
  | cons x xs ih =>
    intro f t hft z hz
    unfold sortSliceByAfter at hft hz
    simp only [List.foldr_cons] at hft hz
    cases hs : sortSliceByAfter xs with
    | nil =>
      unfold sortSliceByAfter at hs
      rw [hs] at hft hz
      unfold insertByAfter at hft hz
      cases hft
      rw [List.mem_singleton] at hz
      rw [hz]
      exact lastModifiedAfter_irrefl x
    | cons h2 t2 =>
      have ihh := fun z hz => ih h2 t2 hs z hz
      unfold sortSliceByAfter at hs
      rw [hs] at hft hz
      unfold insertByAfter at hft hz
      by_cases hx : lastModifiedAfter x h2 = true
      · rw [if_pos hx] at hft hz
        cases hft
        rcases List.mem_cons.mp hz with hz1 | hz2
        · rw [hz1]; exact lastModifiedAfter_irrefl x
        · rcases List.mem_cons.mp hz2 with hz3 | hz4
          · rw [hz3]; exact lastModifiedAfter_asymm x h2 hx
          · by_contra hcon
            have hzx : lastModifiedAfter z x = true := by
              cases hb : lastModifiedAfter z x with
              | false => exact absurd hb hcon
              | true => rfl
            have : lastModifiedAfter z h2 = true :=
              lastModifiedAfter_trans z x h2 hzx hx
            have hzmem : z ∈ sortSliceByAfter xs := by
              unfold sortSliceByAfter; rw [hs]; exact hz2
            rw [ihh z hzmem] at this
            exact Bool.noConfusion this
      · rw [if_neg hx] at hft hz
        have hfh : f = h2 ∧ t = insertByAfter x t2 := by
          cases hft; exact ⟨rfl, rfl⟩
        rcases List.mem_cons.mp hz with hz1 | hz2
        · rw [hz1, hfh.1]
          have : h2 ∈ sortSliceByAfter xs := by
            unfold sortSliceByAfter; rw [hs]; exact List.mem_cons_self h2 t2
          exact ihh h2 this
        · rcases (mem_insertByAfter z x t2).mp hz2 with hz3 | hz4
          · rw [hz3, hfh.1]
            cases hb : lastModifiedAfter x h2 with
            | false => rfl
            | true => exact absurd hb hx
          · rw [hfh.1]
            have : z ∈ sortSliceByAfter xs := by
              unfold sortSliceByAfter; rw [hs]
              exact List.mem_cons_of_mem h2 hz4
            exact ihh z this

lemma not_after_implies_modTimeLE (a b : S3Object)
    (h : lastModifiedAfter a b = false) :
    modTimeLE a.lastModified b.lastModified := by
  unfold lastModifiedAfter at h
  unfold modTimeLE
  cases ha : a.lastModified with
  | none => trivial
  | some ta =>
    rw [ha] at h
    cases hb : b.lastModified with
    | none => rw [hb] at h; exact Bool.noConfusion h
    | some tb =>
      rw [hb] at h
      simp at h
      omega

/-! ## Claim C8 -/

/-- C8: on every non-empty listing under the default key prefix,
`GetLatestObject` succeeds (given the SDK invariant that listed objects
carry keys) with the key of a listed object whose modification time is at
least that of every other listed object (nil modification times ordered
last, as in the code's comparator), and the choice is deterministic: equal
listings always yield the same key.  Note the tie-break is whatever order
the (unstable) `sort.Slice` leaves equal elements in — the comparator never
inspects keys. -/
theorem c8_get_latest_object (files : List S3Object)
    (hne : files ≠ [])
    (hkeys : ∀ o ∈ files, o.key.isSome) :
    ∃ (k : String) (o : S3Object),
      GetLatestObject files = .ok k ∧
      o ∈ files ∧ o.key = some k ∧
      (∀ o2 ∈ files, lastModifiedAfter o2 o = false) ∧
      (∀ o2 ∈ files, modTimeLE o2.lastModified o.lastModified) ∧
      (∀ files2, files2 = files → GetLatestObject files2 = GetLatestObject files) := by
  cases hs : sortSliceByAfter files with
  | nil =>
    exfalso
    cases files with
    | nil => exact hne rfl
    | cons x xs =>
      have : x ∈ sortSliceByAfter (x :: xs) :=
        (mem_sortSliceByAfter x (x :: xs)).mpr (List.mem_cons_self x xs)
      rw [hs] at this
      exact absurd this (List.not_mem_nil x)
  | cons f t =>
    have hfmem : f ∈ files :=
      (mem_sortSliceByAfter f files).mp (by rw [hs]; exact List.mem_cons_self f t)
    have hkey := hkeys f hfmem
    rcases hk : f.key with _ | k
    · rw [hk] at hkey; exact absurd hkey (by simp)
    refine ⟨k, f, ?_, hfmem, hk, ?_, ?_, fun files2 h2 => by rw [h2]⟩
    · unfold GetLatestObject
      have hlen : ¬ files.length < 1 := by
        cases files with
        | nil => exact absurd rfl hne
        | cons x xs => simp
      rw [if_neg hlen, hs]
      simp only [hk]
    · intro o2 ho2
      exact sortSliceByAfter_head_max files f t hs o2
        ((mem_sortSliceByAfter o2 files).mpr ho2)
    · intro o2 ho2
      exact not_after_implies_modTimeLE o2 f
        (sortSliceByAfter_head_max files f t hs o2
          ((mem_sortSliceByAfter o2 files).mpr ho2))

/-- Witness for C8 on a concrete two-object listing: the most recently
modified object's key is returned. -/
theorem c8_get_latest_object_witness :
    ([⟨some "k1", some 5⟩, ⟨some "k2", some 9⟩] : List S3Object) ≠ [] ∧
    (∀ o ∈ ([⟨some "k1", some 5⟩, ⟨some "k2", some 9⟩] : List S3Object), o.key.isSome) ∧
    (∃ (k : String) (o : S3Object),
      GetLatestObject [⟨some "k1", some 5⟩, ⟨some "k2", some 9⟩] = .ok k ∧
      o ∈ ([⟨some "k1", some 5⟩, ⟨some "k2", some 9⟩] : List S3Object) ∧
      o.key = some k ∧
      (∀ o2 ∈ ([⟨some "k1", some 5⟩, ⟨some "k2", some 9⟩] : List S3Object),
        lastModifiedAfter o2 o = false) ∧
      (∀ o2 ∈ ([⟨some "k1", some 5⟩, ⟨some "k2", some 9⟩] : List S3Object),
        modTimeLE o2.lastModified o.lastModified) ∧
      (∀ files2, files2 = [⟨some "k1", some 5⟩, ⟨some "k2", some 9⟩] →
        GetLatestObject files2 =
          GetLatestObject [⟨some "k1", some 5⟩, ⟨some "k2", some 9⟩])) :=
  ⟨by simp, by decide,
    c8_get_latest_object [⟨some "k1", some 5⟩, ⟨some "k2", some 9⟩] (by simp) (by decide)⟩

/-! ## Archive codec (src/src/archive.go)

The archive byte stream is modelled as a list of tokens: one token per tar
header, one per content byte, one for the end-of-archive trailer written by
`tar.Writer.Close`, one (`ioError`) marking the point at which an
underlying read fails, and one opaque frame for a whole zstd-compressed
stream (the external zstd codec is lossless, so decoding a frame yields
exactly the tokens that were encoded into it; `zstd.NewReader` fails on
input that is not a valid frame). -/

inductive TarType where
  | reg
  | dir
deriving DecidableEq

structure TarHeader where
  name : String
  typeflag : TarType
  mode : Nat
  size : Nat
  mtime : Int
  atime : Int
deriving DecidableEq

inductive Token where
  | header (h : TarHeader)
  | byte (b : Nat)
  | endOfArchive
  | ioError (e : GoErr)
  | zstdFrame (inner : List Token)

/-- `filepath.ToSlash` replaces every `filepath.Separator` with '/'; on the
linux build target the separator already is '/', so the replacement is the
identity. -/
def filepath_ToSlash (p : String) : String := p

/-- `filepath.Dir`: everything but the last path element (Go also runs
`path.Clean` on the result; the model keeps redundant separators, which
never arise in the walked paths the claims touch). -/
def filepath_Dir (p : String) : String :=
  let d := String.intercalate "/" (p.splitOn "/").dropLast
  if d = "" then (if p.startsWith "/" then "/" else ".") else d

/-- One node visited by `filepath.Walk`: the path handed to the callback
and the `os.FileInfo` fields the code reads. -/
structure WalkNode where
  path : String
  isDir : Bool
  mode : Nat
  size : Nat
  mtime : Int
  atime : Int
deriving DecidableEq

/-- The filesystem oracle behind `filepath.Glob`, `filepath.Walk` and
`os.Open`/`io.Copy`: `glob` yields the matches of a pattern (or a pattern
syntax error), `walk` the depth-first visit sequence of a root where an
`error` element is the walk error handed to the callback at that point, and
`readFile` the content of a regular file (or the open/read error). -/
structure GoFS where
  glob : String → Except GoErr (List String)
  walk : String → List (Except GoErr WalkNode)
  readFile : String → Except GoErr (List Nat)

/-- `tar.FileInfoHeader(fi, ...)` followed by the code's
`header.Name = filepath.ToSlash(file)` override (archive.go lines 101-108):
the header records the slash-normalized path, the permission bits
(`fi.Mode().Perm()`, i.e. the low 9 bits, `% 512`), a zero size for
directories and `fi.Size()` for regular files, and the timestamps. -/
def headerOfNode (n : WalkNode) : TarHeader :=
  { name := filepath_ToSlash n.path
    typeflag := if n.isDir then TarType.dir else TarType.reg
    mode := n.mode % 512
    size := if n.isDir then 0 else n.size
    mtime := n.mtime
    atime := n.atime }

/-- The body of the `filepath.Walk` callback (archive.go lines 96-127),
iterated over the nodes of one walk: emits a header token per node and the
content bytes for non-directories, counting archived files; aborts on the
first error (walk error, open/read error, or the `archive/tar` size-contract
violation when the copied bytes do not match the header's recorded size).
The tokens emitted before the error have already been written. -/
def emitNodes (fsys : GoFS) : List (Except GoErr WalkNode) → List Token × Except GoErr Nat
  | [] => ([], .ok 0)
  | .error e :: _ => ([], .error e)
  | .ok n :: rest =>
    let h := headerOfNode n
    if n.isDir then
      let (ts, res) := emitNodes fsys rest
      (Token.header h :: ts, res)
    else
      match fsys.readFile n.path with
      | .error e => ([Token.header h], .error e)
      | .ok data =>
        if data.length = n.size then
          let (ts, res) := emitNodes fsys rest
          (Token.header h :: (data.map Token.byte ++ ts),
            match res with
            | .ok k => .ok (k + 1)
            | .error e => .error e)
        else
          ([Token.header h], .error .writeTooLong)

/-- The per-pattern loop over `filepath.Glob` matches
(archive.go lines 95-131). -/
def walkMatches (fsys : GoFS) : List String → List Token × Except GoErr Nat
  | [] => ([], .ok 0)
  | m :: ms =>
    let (ts1, r1) := emitNodes fsys (fsys.walk m)
    match r1 with
    | .error e => (ts1, .error e)
    | .ok k1 =>
      let (ts2, r2) := walkMatches fsys ms
      (ts1 ++ ts2,
        match r2 with
        | .ok k2 => .ok (k1 + k2)
        | .error e => .error e)

/-- `archiveArtifacts` (archive.go lines 82-134): walks the glob patterns
and writes matching files into the tar writer; returns the tokens written
and the file count, aborting on the first error with the tokens written so
far already emitted. -/
def archiveArtifacts (fsys : GoFS) : List String → List Token × Except GoErr Nat
  | [] => ([], .ok 0)
  | pat :: pats =>
    match fsys.glob pat with
    | .error e => ([], .error e)
    | .ok found =>
      let (ts1, r1) := walkMatches fsys found
      match r1 with
      | .error e => (ts1, .error e)
      | .ok k1 =>
        let (ts2, r2) := archiveArtifacts fsys pats
        (ts1 ++ ts2,
          match r2 with
          | .ok k2 => .ok (k1 + k2)
          | .error e => .error e)

/-- `Zip` (archive.go lines 29-80): the archive bytes written to the output
file.  `tw.Close()` appends the end-of-archive trailer; with zstd
compression the whole tar stream is wrapped in one compressed frame flushed
by `zw.Close()`.  `compressionLevel` only tunes the zstd encoder's
speed/ratio trade-off and does not affect the decoded content. -/
def Zip (fsys : GoFS) (artifacts : List String) (compression : String)
    (compressionLevel : Nat) : Except GoErr (List Token) :=
  let _ := compressionLevel
  let (ts, res) := archiveArtifacts fsys artifacts
  match res with
  | .error e => .error e
  | .ok _count =>
    let closed := ts ++ [Token.endOfArchive]
    .ok (if compression = CompressionZstd then [Token.zstdFrame closed] else closed)

/-- Observable outcome of `ZipStream`'s producer goroutine
(archive.go lines 141-188): the tokens that reached the pipe, the error
the pipe's write end was closed with (`pw.Close()` is
`pw.CloseWithError(nil)`, so this is always `none` in the code), and the
values sent on the single-slot completion channel before `close(errChan)`. -/
structure ZipStreamOutcome where
  pipe : List Token
  pipeCloseErr : Option GoErr
  chan : List GoErr

/-- `ZipStream` (archive.go lines 141-188).  On an archiving error the
goroutine sends the error on `errChan` and returns; the deferred
`pw.Close()` then closes the pipe with a nil error.  On the zstd path an
early abort leaves the compressed frame unflushed (`zw.Close()` is never
reached), so nothing but previously flushed data is in the pipe; the model
keeps the whole frame buffered until the successful close. -/
def ZipStream (fsys : GoFS) (artifacts : List String) (compression : String)
    (compressionLevel : Nat) : ZipStreamOutcome :=
  let _ := compressionLevel
  let (ts, res) := archiveArtifacts fsys artifacts
  match res with
  | .error e =>
    { pipe := if compression = CompressionZstd then [] else ts
      pipeCloseErr := none
      chan := [e] }
  | .ok _count =>
    let closed := ts ++ [Token.endOfArchive]
    { pipe := if compression = CompressionZstd then [Token.zstdFrame closed] else closed
      pipeCloseErr := none
      chan := [] }

/-- What the consumer's next read on the pipe's read end returns once it
has drained the buffered data: `io.Pipe` semantics — reading a pipe whose
write end was closed with a nil error yields a clean `io.EOF`
end-of-stream, while `CloseWithError(err)` would make the read fail with
`err`. -/
inductive PipeReadEnd where
  | eof
  | errClosed (e : GoErr)
deriving DecidableEq

def consumerFinalRead (o : ZipStreamOutcome) : PipeReadEnd :=
  match o.pipeCloseErr with
  | some e => .errClosed e
  | none => .eof

/-- A file on the local filesystem after extraction. -/
structure XFile where
  content : List Nat
  mode : Nat
  mtime : Int
  atime : Int
deriving DecidableEq

/-- The local filesystem state during extraction: the files written (path
to file) and the `os.MkdirAll` calls issued in order. -/
structure UnzipState where
  files : String → Option XFile
  dirs : List String

def emptyUnzipState : UnzipState := { files := fun _ => none, dirs := [] }

def writeFileMap (m : String → Option XFile) (k : String) (v : XFile) :
    String → Option XFile :=
  fun x => if x = k then some v else m x

/-- Reading the current entry's `size` content bytes from the stream, as
`tar.Reader` serves them to `io.Copy`: returns the bytes obtained and
either the remaining stream or the error that interrupted the read.  The
bytes obtained before the error have already been served (and, in
`extractFile`, written to the destination). -/
def readContent : Nat → List Token → List Nat × Except GoErr (List Token)
  | 0, ts => ([], .ok ts)
  | n + 1, Token.byte b :: rest =>
    let (bs, r) := readContent n rest
    (b :: bs, r)
  | _ + 1, Token.ioError e :: _ => ([], .error e)
  | _ + 1, [] => ([], .error .unexpectedEOF)
  | _ + 1, _ :: _ => ([], .error .unexpectedEOF)

lemma readContent_ok_length (n : Nat) (ts : List Token) (bs : List Nat)
    (rest : List Token) (h : readContent n ts = (bs, .ok rest)) :
    rest.length ≤ ts.length := by
  induction n generalizing ts bs rest with
  | zero =>
    unfold readContent at h
    injection h with h1 h2
    injection h2 with h3
    rw [← h3]
  | succ m ih =>
    cases ts with
    | nil =>
      unfold readContent at h
      injection h with h1 h2
      exact absurd h2 (by simp)
    | cons t rest0 =>
      cases t with
      | byte b =>
        unfold readContent at h
        simp only at h
        rcases hr : readContent m rest0 with ⟨bs2, r2⟩
        rw [hr] at h
        cases r2 with
        | error e => simp at h
        | ok rest2 =>
          simp at h
          have hlen := ih rest0 bs2 rest2 hr
          rw [← h.2]
          simp only [List.length_cons]
          omega
      | ioError e =>
        unfold readContent at h
        injection h with h1 h2
        exact absurd h2 (by simp)
      | header h2 =>
        unfold readContent at h
        injection h with ha hb
        exact absurd hb (by simp)
      | endOfArchive =>
        unfold readContent at h
        injection h with ha hb
        exact absurd hb (by simp)
      | zstdFrame inner =>
        unfold readContent at h
        injection h with ha hb
        exact absurd hb (by simp)

/-- `extractFile` (archive.go lines 246-264).  `os.OpenFile` with
`O_CREATE|O_RDWR|O_TRUNC` truncates the destination and — only when the
file is newly created — gives it the permission bits of
`os.FileMode(header.Mode)` (the low 9 bits of the recorded mode; an
existing file keeps its mode).  `io.Copy` then writes the entry's bytes as
they are read, so on a read failure the destination holds the prefix read
so far; on success `os.Chtimes(header.Name, ...)` restores the recorded
timestamps.  Returns the state after the call and either the remaining
stream or the error returned. -/
def extractFile (target : String) (h : TarHeader) (ts : List Token)
    (st : UnzipState) : UnzipState × Except GoErr (List Token) :=
  let mode :=
    match st.files target with
    | some old => old.mode
    | none => h.mode % 512
  match readContent h.size ts with
  | (bs, .error e) =>
    ({ st with files := writeFileMap st.files target ⟨bs, mode, 0, 0⟩ }, .error e)
  | (bs, .ok rest) =>
    let st1 := { st with files := writeFileMap st.files target ⟨bs, mode, 0, 0⟩ }
    match st1.files h.name with
    | none => (st1, .error .chtimesFailed)
    | some f =>
      ({ st1 with
          files := writeFileMap st1.files h.name
            { f with mtime := h.mtime, atime := h.atime } },
        .ok rest)

lemma extractFile_ok_length (target : String) (h : TarHeader) (ts : List Token)
    (st : UnzipState) (st2 : UnzipState) (rest : List Token)
    (hx : extractFile target h ts st = (st2, .ok rest)) :
    rest.length ≤ ts.length := by
  unfold extractFile at hx
  rcases hr : readContent h.size ts with ⟨bs, r⟩
  rw [hr] at hx
  cases r with
  | error e => simp at hx
  | ok rest2 =>
    have hlen := readContent_ok_length h.size ts bs rest2 hr
    simp only at hx
    rcases hf : (writeFileMap st.files target ⟨bs,
        match st.files target with
        | some old => old.mode
        | none => h.mode % 512, 0, 0⟩) h.name with _ | f
    · rw [hf] at hx
      simp at hx
    · rw [hf] at hx
      simp at hx
      rw [← hx.2]
      exact hlen

/-- The extraction loop of `Unzip` (archive.go lines 214-240): read the
next header; a clean end of input or the end-of-archive trailer ends the
loop; for a regular-file entry create the parent directory
(`os.MkdirAll(filepath.Dir(target), 0755)`) and extract the file; any
other entry type is merely consumed (`tar.Reader.Next` discards the
current entry's content).  Returns the filesystem state when the loop
ends and either the extracted-file count or the first error. -/
def unzipLoop (ts : List Token) (st : UnzipState) (count : Nat) :
    UnzipState × Except GoErr Nat :=
  match ts with
  | [] => (st, .ok count)
  | Token.endOfArchive :: _ => (st, .ok count)
  | Token.ioError e :: _ => (st, .error e)
  | Token.zstdFrame _ :: _ => (st, .error .malformedHeader)
  | Token.byte _ :: _ => (st, .error .malformedHeader)
  | Token.header h :: rest =>
    if h.typeflag = TarType.reg then
      let target := filepath_ToSlash h.name
      let st1 := { st with dirs := st.dirs ++ [filepath_Dir target] }
      match hx : extractFile target h rest st1 with
      | (st2, .error e) => (st2, .error e)
      | (st2, .ok rest2) => unzipLoop rest2 st2 (count + 1)
    else
      match hs : readContent h.size rest with
      | (_, .error e) => (st, .error e)
      | (_, .ok rest2) => unzipLoop rest2 st count
  termination_by ts.length
  decreasing_by
  · have := extractFile_ok_length _ h rest _ st2 rest2 hx
    simp only [List.length_cons]
    omega
  · have := readContent_ok_length h.size rest _ rest2 hs
    simp only [List.length_cons]
    omega

/-- `Unzip` (archive.go lines 190-244), as a function of the archive bytes
read from the downloaded file: with zstd compression, `zstd.NewReader`
accepts exactly a well-formed compressed frame and yields the tokens inside
it; otherwise the bytes are consumed as a plain tar stream. -/
def Unzip (archive : List Token) (compression : String) :
    UnzipState × Except GoErr Nat :=
  if compression = CompressionZstd then
    match archive with
    | [Token.zstdFrame inner] => unzipLoop inner emptyUnzipState 0
    | _ => (emptyUnzipState, .error .zstdFormat)
  else
    unzipLoop archive emptyUnzipState 0

/-! ## Claim C1 -/

/-- A filesystem on which pattern expansion fails: "[" is a malformed glob
pattern, so `filepath.Glob` returns `ErrBadPattern`. -/
def badGlobFS : GoFS :=
  { glob := fun p => if p = "[" then .error .badPattern else .ok []
    walk := fun _ => []
    readFile := fun _ => .error .notExist }

/-- C1 (code_bug evaluation): on a pattern-expansion failure the `ZipStream`
producer does abort immediately and does publish the error exactly once on
the completion channel, but its deferred `pw.Close()` closes the pipe with
a *nil* error (archive.go line 146), so after draining the buffered bytes
the consumer's next read returns a clean `io.EOF` end-of-stream — not a
failing read as the claim states.  (`pw.CloseWithError(err)` would be
needed for that; as written, a streaming uploader consuming the pipe sees
a normally terminated stream and commits a truncated object.) -/
theorem c1_zipstream_error_closes_pipe_clean :
    (ZipStream badGlobFS ["["] CompressionNone 0).chan = [GoErr.badPattern] ∧
    (ZipStream badGlobFS ["["] CompressionNone 0).pipeCloseErr = none ∧
    consumerFinalRead (ZipStream badGlobFS ["["] CompressionNone 0) =
      PipeReadEnd.eof := by
  refine ⟨rfl, rfl, rfl⟩

/-! ## Claim C7 -/

/-- An archive stream whose single entry `dirA/a.txt` records 4 content
bytes but whose underlying reader fails after serving 2 of them. -/
def truncatedEntryStream : List Token :=
  [Token.header ⟨"dirA/a.txt", TarType.reg, 420, 4, 100, 200⟩,
    Token.byte 104, Token.byte 105, Token.ioError .readFailure]

/-- C7 (code_bug evaluation): when `io.Copy` inside `extractFile` fails
midway, `Unzip` aborts with the error, but the destination file is left
holding the 2-byte prefix already copied (`dirA/a.txt` was opened with
`O_TRUNC` and written to; nothing removes or re-truncates it on the error
path, archive.go lines 247-264) — not truncated or removed as the claim
requires. -/
theorem c7_partial_entry_left_on_failure :
    (Unzip truncatedEntryStream CompressionNone).2 = .error GoErr.readFailure ∧
    (Unzip truncatedEntryStream CompressionNone).1.files "dirA/a.txt" =
      some ⟨[104, 105], 420, 0, 0⟩ ∧
    ([104, 105] : List Nat) ≠ [] ∧
    ([104, 105] : List Nat).length < 4 := by
  have hu : Unzip truncatedEntryStream CompressionNone =
      unzipLoop truncatedEntryStream emptyUnzipState 0 := by
    unfold Unzip
    rw [if_neg (by simp [CompressionNone, CompressionZstd])]
  refine ⟨?_, ?_, by simp, by simp⟩ <;>
    rw [hu] <;>
    simp [unzipLoop, truncatedEntryStream, extractFile, readContent,
      emptyUnzipState, writeFileMap, filepath_ToSlash, filepath_Dir]

/-! ## Computation lemmas for the extraction loop -/

lemma writeFileMap_same (m : String → Option XFile) (k : String) (v : XFile) :
    writeFileMap m k v k = some v := by
  simp [writeFileMap]

lemma writeFileMap_other (m : String → Option XFile) (k x : String) (v : XFile)
    (h : x ≠ k) : writeFileMap m k v x = m x := by
  simp [writeFileMap, h]

lemma writeFileMap_collapse (m : String → Option XFile) (k : String)
    (v1 v2 : XFile) :
    writeFileMap (writeFileMap m k v1) k v2 = writeFileMap m k v2 := by
  funext x
  unfold writeFileMap
  split_ifs <;> rfl

lemma readContent_exact (bs : List Nat) (rest : List Token) :
    readContent bs.length (bs.map Token.byte ++ rest) = (bs, .ok rest) := by
  induction bs with
  | nil => rfl
  | cons b bs2 ih =>
    simp only [List.length_cons, List.map_cons, List.cons_append, readContent,
      List.append_eq, ih]

/-- The mode `extractFile` leaves on the destination: the recorded
permission bits for a newly created file, the pre-existing mode otherwise
(`os.OpenFile`'s permission argument only applies on creation). -/
def extractedMode (st : UnzipState) (h : TarHeader) : Nat :=
  match st.files h.name with
  | some old => old.mode
  | none => h.mode % 512

lemma extractFile_exact (h : TarHeader) (bs : List Nat) (rest : List Token)
    (st : UnzipState) (hsize : h.size = bs.length) :
    extractFile (filepath_ToSlash h.name) h (bs.map Token.byte ++ rest) st =
      ({ st with
          files := writeFileMap st.files h.name
            { content := bs
              mode := extractedMode st h
              mtime := h.mtime
              atime := h.atime } },
        .ok rest) := by
  unfold extractFile extractedMode
  simp only [filepath_ToSlash]
  rw [hsize, readContent_exact]
  simp only [writeFileMap_same, writeFileMap_collapse]

lemma unzipLoop_endOfArchive (st : UnzipState) (count : Nat) (rest : List Token) :
    unzipLoop (Token.endOfArchive :: rest) st count = (st, .ok count) := by
  simp [unzipLoop]

lemma unzipLoop_cons_reg (h : TarHeader) (bs : List Nat) (rest : List Token)
    (st : UnzipState) (count : Nat)
    (hreg : h.typeflag = TarType.reg) (hsize : h.size = bs.length) :
    unzipLoop (Token.header h :: (bs.map Token.byte ++ rest)) st count =
      unzipLoop rest
        { files := writeFileMap st.files h.name
            { content := bs
              mode := extractedMode { st with
                dirs := st.dirs ++ [filepath_Dir (filepath_ToSlash h.name)] } h
              mtime := h.mtime
              atime := h.atime }
          dirs := st.dirs ++ [filepath_Dir (filepath_ToSlash h.name)] }
        (count + 1) := by
  rw [unzipLoop]
  rw [if_pos hreg]
  have hx2 := extractFile_exact h bs rest
    (⟨st.files, st.dirs ++ [filepath_Dir (filepath_ToSlash h.name)]⟩ : UnzipState) hsize
  dsimp only
  split
  · rename_i st2 e hx
    rw [hx2] at hx
    simp at hx
  · rename_i st2 rest2 hx
    rw [hx2] at hx
    have h1 : _ = st2 := congrArg Prod.fst hx
    have h2 : rest = rest2 := by
      have := congrArg Prod.snd hx
      simp at this
      exact this
    rw [← h1, ← h2]

lemma extractedMode_dirs (st : UnzipState) (d : List String) (h : TarHeader) :
    extractedMode { st with dirs := d } h = extractedMode st h := rfl

/-! ## A file tree of regular files, as the archiver sees it

For the round-trip claim the archived tree is a list of regular files.
`treeFS T` is the `GoFS` oracle of a filesystem holding exactly those
files: `filepath.Glob` on a pattern that is a literal path (no `*`, `?`,
`[`, `\` metacharacters) returns the path when the file exists and nothing
otherwise, and `filepath.Walk` on a regular-file path visits just that
file (or hands the callback the lstat error when the path does not
exist). -/

structure TFile where
  name : String
  content : List Nat
  perm : Nat
  mtime : Int
  atime : Int
deriving DecidableEq

def hasGlobMeta (s : String) : Bool :=
  s.data.any (fun c => c = '*' || c = '?' || c = '[' || c = '\\')

def literalPattern (s : String) : Bool :=
  !s.isEmpty && !hasGlobMeta s

def nodeOfTFile (f : TFile) : WalkNode :=
  { path := f.name, isDir := false, mode := f.perm, size := f.content.length
    mtime := f.mtime, atime := f.atime }

def treeFS (T : List TFile) : GoFS :=
  { glob := fun pat =>
      .ok (match T.find? (fun f => f.name == pat) with
           | some _ => [pat]
           | none => [])
    walk := fun p =>
      match T.find? (fun f => f.name == p) with
      | some f => [.ok (nodeOfTFile f)]
      | none => [.error .notExist]
    readFile := fun p =>
      match T.find? (fun f => f.name == p) with
      | some f => .ok f.content
      | none => .error .notExist }

/-- The tar header `Zip` records for a regular file of the tree. -/
def headerOfTFile (f : TFile) : TarHeader :=
  { name := f.name, typeflag := TarType.reg, mode := f.perm % 512
    size := f.content.length, mtime := f.mtime, atime := f.atime }

lemma headerOfNode_tfile (f : TFile) :
    headerOfNode (nodeOfTFile f) = headerOfTFile f := rfl

/-- The tokens one regular file contributes to the tar stream. -/
def entryTokens (f : TFile) : List Token :=
  Token.header (headerOfTFile f) :: f.content.map Token.byte

def tokensOfTree : List TFile → List Token
  | [] => []
  | f :: fs => entryTokens f ++ tokensOfTree fs

lemma find_name_eq (T : List TFile) (f : TFile)
    (hnd : (T.map TFile.name).Nodup) (hf : f ∈ T) :
    T.find? (fun g => g.name == f.name) = some f := by
  induction T with
  | nil => exact absurd hf (List.not_mem_nil f)
  | cons g gs ih =>
    rw [List.map_cons] at hnd
    rcases List.nodup_cons.mp hnd with ⟨hg, hnd2⟩
    rcases List.mem_cons.mp hf with h1 | h2
    · subst h1
      have : (f.name == f.name) = true := by simp
      simp [List.find?, this]
    · have hgn : (g.name == f.name) = false := by
        by_contra hc
        have heq : g.name = f.name := by
          cases hb : (g.name == f.name) with
          | false => exact absurd hb hc
          | true => exact eq_of_beq hb
        exact hg (heq ▸ List.mem_map_of_mem TFile.name h2)
      simp only [List.find?, hgn]
      exact ih hnd2 h2

lemma walkMatches_single (T : List TFile) (f : TFile)
    (hfind : T.find? (fun g => g.name == f.name) = some f) :
    walkMatches (treeFS T) [f.name] = (entryTokens f, .ok 1) := by
  have hwalk : (treeFS T).walk f.name = [.ok (nodeOfTFile f)] := by
    simp only [treeFS, hfind]
  have hread : (treeFS T).readFile f.name = .ok f.content := by
    simp only [treeFS, hfind]
  simp only [walkMatches, emitNodes, hwalk, hread, nodeOfTFile, headerOfNode_tfile]
  simp [entryTokens, headerOfNode, headerOfTFile, filepath_ToSlash, nodeOfTFile]

lemma archiveArtifacts_tree (T : List TFile) (S : List TFile)
    (hnd : (T.map TFile.name).Nodup)
    (hsub : ∀ f ∈ S, f ∈ T) :
    archiveArtifacts (treeFS T) (S.map TFile.name) =
      (tokensOfTree S, .ok S.length) := by
  induction S with
  | nil => rfl
  | cons f S2 ih =>
    have hf : f ∈ T := hsub f (List.mem_cons_self f S2)
    have hfind := find_name_eq T f hnd hf
    have ih2 := ih (fun g hg => hsub g (List.mem_cons_of_mem f hg))
    have hglob : (treeFS T).glob f.name = .ok [f.name] := by
      simp only [treeFS, hfind]
    simp only [List.map_cons, archiveArtifacts, hglob, walkMatches_single T f hfind, ih2]
    simp [tokensOfTree, List.length_cons, Nat.add_comm]

lemma unzipLoop_tree (S : List TFile) (st : UnzipState) (count : Nat)
    (hnd : (S.map TFile.name).Nodup)
    (hfresh : ∀ f ∈ S, st.files f.name = none) :
    (unzipLoop (tokensOfTree S ++ [Token.endOfArchive]) st count).2 =
      .ok (count + S.length) ∧
    (∀ f ∈ S,
      (unzipLoop (tokensOfTree S ++ [Token.endOfArchive]) st count).1.files f.name =
        some ⟨f.content, f.perm % 512, f.mtime, f.atime⟩) ∧
    (∀ x, (∀ f ∈ S, x ≠ f.name) →
      (unzipLoop (tokensOfTree S ++ [Token.endOfArchive]) st count).1.files x =
        st.files x) := by
  induction S generalizing st count with
  | nil =>
    simp only [tokensOfTree, List.nil_append, unzipLoop_endOfArchive]
    refine ⟨rfl, ?_, ?_⟩
    · intro f hf
      exact absurd hf (List.not_mem_nil f)
    · intro x hx
      trivial
  | cons f S2 ih =>
    rw [List.map_cons, List.nodup_cons] at hnd
    obtain ⟨hf_nin, hnd2⟩ := hnd
    have hfr : st.files f.name = none := hfresh f (List.mem_cons_self f S2)
    have hstream : tokensOfTree (f :: S2) ++ [Token.endOfArchive] =
        Token.header (headerOfTFile f) ::
          (f.content.map Token.byte ++ (tokensOfTree S2 ++ [Token.endOfArchive])) := by
      simp [tokensOfTree, entryTokens, List.append_assoc]
    have hmode : extractedMode { st with dirs := st.dirs ++
        [filepath_Dir (filepath_ToSlash (headerOfTFile f).name)] } (headerOfTFile f) =
        f.perm % 512 := by
      unfold extractedMode
      dsimp only
      simp only [headerOfTFile]
      rw [hfr]
      dsimp only
      omega
    rw [hstream, unzipLoop_cons_reg _ _ _ _ _ rfl rfl, hmode]
    simp only [headerOfTFile, filepath_ToSlash]
    have hfreshN : ∀ g ∈ S2,
        ({ files := writeFileMap st.files f.name
            { content := f.content, mode := f.perm % 512
              mtime := f.mtime, atime := f.atime }
           dirs := st.dirs ++ [filepath_Dir f.name] } : UnzipState).files g.name =
          none := by
      intro g hg
      have hne : g.name ≠ f.name := by
        intro he
        exact hf_nin (he ▸ List.mem_map_of_mem TFile.name hg)
      dsimp only
      rw [writeFileMap_other _ _ _ _ hne]
      exact hfresh g (List.mem_cons_of_mem f hg)
    have IH2 := ih
      ({ files := writeFileMap st.files f.name
          { content := f.content, mode := f.perm % 512
            mtime := f.mtime, atime := f.atime }
         dirs := st.dirs ++ [filepath_Dir f.name] } : UnzipState)
      (count + 1) hnd2 hfreshN
    refine ⟨?_, ?_, ?_⟩
    · rw [IH2.1]
      congr 1
      simp only [List.length_cons]
      omega
    · intro g hg
      rcases List.mem_cons.mp hg with h1 | h2
      · subst h1
        have hneq : ∀ f2 ∈ S2, g.name ≠ f2.name := by
          intro f2 hf2 he
          exact hf_nin (he ▸ List.mem_map_of_mem TFile.name hf2)
        rw [IH2.2.2 g.name hneq]
        dsimp only
        exact writeFileMap_same _ _ _
      · exact IH2.2.1 g h2
    · intro x hx
      have hx_f : x ≠ f.name := hx f (List.mem_cons_self f S2)
      rw [IH2.2.2 x (fun g hg => hx g (List.mem_cons_of_mem f hg))]
      dsimp only
      exact writeFileMap_other _ _ _ _ hx_f

/-! ## Claim C2 -/

/-- C2: for every file tree of regular files (distinct literal path names)
and both compression modes, decoding the archive produced by encoding the
tree (`Unzip` after `Zip`) succeeds, extracts exactly one file per tree
entry, and reproduces every regular file byte-for-byte at its original
path with its original permission bits (`perm % 512` is the file's
permission-bit value `fi.Mode().Perm()`); the recorded timestamps are
restored as well. -/
theorem c2_zip_unzip_roundtrip (T : List TFile) (compression : String)
    (level : Nat)
    (hnd : (T.map TFile.name).Nodup)
    (hlit : ∀ f ∈ T, literalPattern f.name = true)
    (hcomp : compression = CompressionNone ∨ compression = CompressionZstd) :
    ∃ archive : List Token,
      Zip (treeFS T) (T.map TFile.name) compression level = .ok archive ∧
      (Unzip archive compression).2 = .ok T.length ∧
      ∀ f ∈ T,
        (Unzip archive compression).1.files f.name =
          some { content := f.content, mode := f.perm % 512
                 mtime := f.mtime, atime := f.atime } := by
  have hw := archiveArtifacts_tree T T hnd (fun f hf => hf)
  have htree := unzipLoop_tree T emptyUnzipState 0 hnd (fun f hf => rfl)
  rcases hcomp with hc | hc
  · subst hc
    refine ⟨tokensOfTree T ++ [Token.endOfArchive], ?_, ?_, ?_⟩
    · unfold Zip
      rw [hw]
      simp [CompressionNone, CompressionZstd]
    · unfold Unzip
      rw [if_neg (by simp [CompressionNone, CompressionZstd])]
      simpa using htree.1
    · intro f hf
      unfold Unzip
      rw [if_neg (by simp [CompressionNone, CompressionZstd])]
      exact htree.2.1 f hf
  · subst hc
    refine ⟨[Token.zstdFrame (tokensOfTree T ++ [Token.endOfArchive])], ?_, ?_, ?_⟩
    · unfold Zip
      rw [hw]
      simp
    · unfold Unzip
      rw [if_pos rfl]
      simpa using htree.1
    · intro f hf
      unfold Unzip
      rw [if_pos rfl]
      exact htree.2.1 f hf

/-- Witness for C2: the spec's concrete scenario A — a tree holding
`dirA/a.txt` with content "hi" ([104, 105]) and mode 0o644 (420),
zstd-compressed, round-trips. -/
theorem c2_zip_unzip_roundtrip_witness :
    ((([⟨"dirA/a.txt", [104, 105], 420, 11, 12⟩] : List TFile).map TFile.name).Nodup) ∧
    (∀ f ∈ ([⟨"dirA/a.txt", [104, 105], 420, 11, 12⟩] : List TFile),
      literalPattern f.name = true) ∧
    (CompressionZstd = CompressionNone ∨ CompressionZstd = CompressionZstd) ∧
    (∃ archive : List Token,
      Zip (treeFS [⟨"dirA/a.txt", [104, 105], 420, 11, 12⟩])
          (([⟨"dirA/a.txt", [104, 105], 420, 11, 12⟩] : List TFile).map TFile.name)
          CompressionZstd 0 = .ok archive ∧
      (Unzip archive CompressionZstd).2 =
        .ok ([⟨"dirA/a.txt", [104, 105], 420, 11, 12⟩] : List TFile).length ∧
      ∀ f ∈ ([⟨"dirA/a.txt", [104, 105], 420, 11, 12⟩] : List TFile),
        (Unzip archive CompressionZstd).1.files f.name =
          some { content := f.content, mode := f.perm % 512
                 mtime := f.mtime, atime := f.atime }) :=
  ⟨by decide, by decide, Or.inr rfl,
    c2_zip_unzip_roundtrip [⟨"dirA/a.txt", [104, 105], 420, 11, 12⟩]
      CompressionZstd 0 (by decide) (by decide) (Or.inr rfl)⟩

/-! ## Claim C10 -/

/-- C10 (implicit claim, confirmed): for every regular-file entry, `Unzip`
writes the extracted file at the path equal to the entry's slash-normalized
recorded name *verbatim* — for every `name`, including names with `..`
components or absolute names — after a single `os.MkdirAll` on that path's
parent; nothing is written anywhere else, and no sanitization is applied
(`filepath.ToSlash` is the identity on this target, so `../evil.txt` or an
absolute path is used as-is and lands outside the extraction directory, as
the final concrete conjunct shows). -/
theorem c10_unzip_writes_verbatim_path (name : String) (bs : List Nat)
    (perm : Nat) (mt at2 : Int) :
    (Unzip (Token.header ⟨name, TarType.reg, perm, bs.length, mt, at2⟩ ::
        (bs.map Token.byte ++ [Token.endOfArchive])) CompressionNone).2 = .ok 1 ∧
    (Unzip (Token.header ⟨name, TarType.reg, perm, bs.length, mt, at2⟩ ::
        (bs.map Token.byte ++ [Token.endOfArchive])) CompressionNone).1.files
      (filepath_ToSlash name) = some ⟨bs, perm % 512, mt, at2⟩ ∧
    filepath_ToSlash name = name ∧
    (∀ x, x ≠ name →
      (Unzip (Token.header ⟨name, TarType.reg, perm, bs.length, mt, at2⟩ ::
          (bs.map Token.byte ++ [Token.endOfArchive])) CompressionNone).1.files x =
        none) ∧
    (Unzip (Token.header ⟨name, TarType.reg, perm, bs.length, mt, at2⟩ ::
        (bs.map Token.byte ++ [Token.endOfArchive])) CompressionNone).1.dirs =
      [filepath_Dir name] ∧
    ((Unzip (Token.header ⟨"../evil.txt", TarType.reg, 420, 1, 0, 0⟩ ::
        (([7] : List Nat).map Token.byte ++ [Token.endOfArchive]))
        CompressionNone).1.files "../evil.txt" = some ⟨[7], 420, 0, 0⟩ ∧
      ("../evil.txt").data.take 3 = ['.', '.', '/']) := by
  have hu : ∀ ts : List Token, Unzip ts CompressionNone =
      unzipLoop ts emptyUnzipState 0 := by
    intro ts
    unfold Unzip
    rw [if_neg (by simp [CompressionNone, CompressionZstd])]
  have hstep := unzipLoop_cons_reg ⟨name, TarType.reg, perm, bs.length, mt, at2⟩ bs
    [Token.endOfArchive] emptyUnzipState 0 rfl rfl
  have hall : Unzip (Token.header ⟨name, TarType.reg, perm, bs.length, mt, at2⟩ ::
      (bs.map Token.byte ++ [Token.endOfArchive])) CompressionNone =
      (({ files := writeFileMap (fun _ => none) name ⟨bs, perm % 512, mt, at2⟩
          dirs := [filepath_Dir name] } : UnzipState), .ok 1) := by
    rw [hu, hstep, unzipLoop_endOfArchive]
    rfl
  refine ⟨?_, ?_, rfl, ?_, ?_, ?_, by decide⟩
  · rw [hall]
  · rw [hall]
    dsimp only
    exact writeFileMap_same _ _ _
  · intro x hx
    rw [hall]
    dsimp only
    rw [writeFileMap_other _ _ _ _ hx]
  · rw [hall]
  · have hstep2 := unzipLoop_cons_reg ⟨"../evil.txt", TarType.reg, 420, 1, 0, 0⟩ [7]
      [Token.endOfArchive] emptyUnzipState 0 rfl rfl
    rw [hu, hstep2, unzipLoop_endOfArchive]
    dsimp only
    exact writeFileMap_same _ _ _
